import Mathlib

/-!
Verification development for the ImpactLab-API-Mockup repository.

Shallow embedding of the two core components:
* the expression-tracking numeric wrapper `Variable`
  (src/ClimateImpactLab/api/variable.py), and
* the catalog store merge/versioning algorithm `MockupDatabase`
  (src/ClimateImpactLab/data/storage.py).

Python exceptions are modelled by an explicit error type `PyErr` and
fallible operations return `Except`.  Python `set` is modelled by
`Finset String` (extensional equality, as in Python).  Python `dict` is
modelled by an association list with insertion-order semantics
(`lookupA` finds the binding, `upsert` overwrites in place or appends),
which matches CPython dict update behaviour.
-/

namespace ImpactLab

/-- Kinds of Python exceptions that the embedded code can raise.  `latest`
catches `KeyError`, `ValueError` and `AttributeError`; `IndexError` and
`NameError` propagate. -/
inductive PyErr where
  | indexError
  | keyError
  | valueError
  | attributeError
  | nameError
  | connectionError
deriving DecidableEq

/-- One version record as stored under the `versions` mapping of a variable in the
catalog JSON (section 6 of the schema: `{uuid, version, updated,
dependencies, filepath}`). -/
structure VersionRec where
  uuid : String
  version : String
  updated : String
  dependencies : List String
  filepath : String
deriving DecidableEq

/-- A value found under a version label of the `versions` attribute mapping
of a tracked variable.  In the catalog flow these are JSON objects
(`dict`, the `record` constructor); nothing stops user code from storing a
plain string there, and the two behave differently under the sort key
`lambda x: x[0]` used by `Variable.latest`:
indexing a dict by `0` raises `KeyError`, indexing a string gives its first
character (or raises `IndexError` when empty). -/
inductive VPayload where
  | str : String → VPayload
  | record : VersionRec → VPayload
deriving DecidableEq

/-- The attributes mapping carried by a backend array value, restricted to
the two keys the embedded code reads: `latex` (the symbol) and `versions`.
`none` models the key being absent (or the value having no usable attrs at
all, e.g. a coerced raw literal: both paths make the Python lookups raise
`KeyError`/`AttributeError`, which `latest` and `latex` treat alike). -/
structure Attrs where
  latex : Option String
  versions : Option (List (String × VPayload))
deriving DecidableEq

/-- A backend (xarray) value.  `base` is a primary array: its `lit` field is
the string rendering `str(value)`, `dimsRender` is the rendering of its
dimension subscripts produced by `get_latex_dims` (a function of the api
dims table, abstracted here to the resulting string), and it carries an
attributes mapping.  `binop`/`unop` are arrays computed by the backend from
operands; xarray arithmetic drops `attrs` by default, so composite values
carry the empty attributes mapping, and their string rendering is never
consulted by the embedded code (every composed `Variable` has an explicit
derivation). -/
inductive Value where
  | base : String → String → Attrs → Value
  | binop : String → Value → Value → Value
  | unop : String → Value → Value
deriving DecidableEq

/-- The attributes mapping of a backend value (`value.attrs`); composites
have empty attrs (xarray default `keep_attrs=False`). -/
def Value.attrs : Value → Attrs
  | .base _ _ a => a
  | .binop _ _ _ => ⟨none, none⟩
  | .unop _ _ => ⟨none, none⟩

/-- The rendering `str(value)`.  For composite arrays the concrete numeric rendering is a
backend detail that no embedded operation depends on (composed variables
always carry an explicit derivation); it is abstracted to a tag. -/
def Value.lit : Value → String
  | .base l _ _ => l
  | .binop t _ _ => "<computed array " ++ t ++ ">"
  | .unop t _ => "<computed array " ++ t ++ ">"

/-- The `get_latex_dims` rendering of the dimensions of a value; only consulted
for primary values that carry a `latex` attribute. -/
def Value.dimsRender : Value → String
  | .base _ d _ => d
  | .binop _ _ _ => ""
  | .unop _ _ => ""

/-- The tracked variable class (`Variable` in api/variable.py).  The `api`
handle is only used through `get_latex_dims`, whose rendering is already
part of `Value`, so it is not carried here.  `derivationRaw` is the private
`_derivation` field, `dependencies` the Python set of version markers. -/
structure Variable where
  value : Value
  derived : Bool
  dependencies : Finset String
  derivationRaw : Option String
deriving DecidableEq

namespace Variable

/-- The `latex` property: the `latex` attribute plus the dimension
subscripts when present, else `str(value)`. -/
def latex (v : Variable) : String :=
  match v.value.attrs.latex with
  | some l => l ++ v.value.dimsRender
  | none => v.value.lit

/-- The `derivation` property: the stored `_derivation` when set, else the
`latex` fallback. -/
def derivation (v : Variable) : String :=
  match v.derivationRaw with
  | some s => s
  | none => v.latex

/-- The sort key `lambda x: x[0]` applied to one value of the versions
mapping: first character of a string (raising `IndexError` when empty),
`KeyError` for a dict payload. -/
def sortKey : VPayload → Except PyErr Char
  | .str s =>
    match s.toList with
    | [] => .error .indexError
    | c :: _ => .ok c
  | .record _ => .error .keyError

/-- Compute the sort keys of all versions values in mapping order, pairing
each (string) payload with its key; the first raising payload determines
the exception, as in CPython `sorted`. -/
def computeKeys : List VPayload → Except PyErr (List (Char × String))
  | [] => .ok []
  | p :: rest =>
    match p with
    | .record _ => .error .keyError
    | .str s =>
      match s.toList with
      | [] => .error .indexError
      | c :: _ => (computeKeys rest).map (fun l => (c, s) :: l)

/-- First element of the list sorted stably by key: the first entry holding
the minimal key. -/
def minByKey (hd : Char × String) (tl : List (Char × String)) : String :=
  (tl.foldl (fun best p => if p.1 < best.1 then p else best) hd).2

/-- The body of the `latest` property over a present `versions` mapping:
`sorted([v for k, v in versions.items()], key=lambda x: x[0])[0]`, with
`KeyError`/`ValueError`/`AttributeError` caught (yielding `None`) and
`IndexError` propagating.  An empty mapping indexes the empty sorted list
and raises `IndexError`; a dict payload raises `KeyError` inside the key
function, which the handler turns into `None`. -/
def latestCompute (vers : List (String × VPayload)) : Except PyErr (Option String) :=
  match (vers.map Prod.snd) with
  | [] => .error .indexError
  | _ :: _ =>
    match computeKeys (vers.map Prod.snd) with
    | .error .keyError => .ok none
    | .error e => .error e
    | .ok [] => .error .indexError
    | .ok (hd :: tl) => .ok (some (minByKey hd tl))

/-- The `latest` property.  A missing `versions` key (or a value without
attrs) raises `KeyError`/`AttributeError`, caught to `None`. -/
def latest (v : Variable) : Except PyErr (Option String) :=
  match v.value.attrs.versions with
  | none => .ok none
  | some vers => latestCompute vers

/-- The set a truthy resolved latest marker contributes to a dependency
union: `{s}` for a nonempty string, nothing otherwise. -/
def markerSet : Option String → Finset String
  | none => ∅
  | some s => if s = "" then ∅ else {s}

/-- The method `_get_dependencies`: union of the receiver set, the other
operand set when present, and the truthy `latest` marker of either
operand, evaluated in source order (receiver first).  Any `IndexError`
escaping `latest` propagates.  The returned set is also the final value of
the `dependencies` attribute of the receiver, because the source aliases
and then mutates it in place with the in-place union operator. -/
def get_dependencies (a : Variable) (other : Option Variable) :
    Except PyErr (Finset String) :=
  let d0 :=
    match other with
    | some b => a.dependencies ∪ b.dependencies
    | none => a.dependencies
  match a.latest with
  | .error e => .error e
  | .ok la =>
    let d1 := d0 ∪ markerSet la
    match other with
    | none => .ok d1
    | some b =>
      match b.latest with
      | .error e => .error e
      | .ok lb => .ok (d1 ∪ markerSet lb)

/-- Common shape of every binary operator: compute the dependency union
(which, via the in-place `|=` in `_get_dependencies`, is also the new value
of the `dependencies` attribute of the receiver), then allocate the result Variable
with the backend value and templated derivation.  Returns
`(result, receiver after the call)`; the other operand is never written.
`derived` is left at its constructor default `True`. -/
def mkBin (a : Variable) (b : Variable) (val : Value) (drv : String) :
    Except PyErr (Variable × Variable) :=
  match get_dependencies a (some b) with
  | .error e => .error e
  | .ok d =>
    .ok (⟨val, true, d, some drv⟩, { a with dependencies := d })

/-- Operator `__add__` (receiver `a`, operand `b`, both already tracked). -/
def add (a b : Variable) : Except PyErr (Variable × Variable) :=
  mkBin a b (.binop "add" a.value b.value)
    (a.derivation ++ " + " ++ b.derivation)

/-- Operator `__radd__`: swapped operand order in value and template; the receiver
(and hence the mutated dependency set) is still `a`. -/
def radd (a b : Variable) : Except PyErr (Variable × Variable) :=
  mkBin a b (.binop "add" b.value a.value)
    (b.derivation ++ " + " ++ a.derivation)

/-- Operator `__sub__`. -/
def sub (a b : Variable) : Except PyErr (Variable × Variable) :=
  mkBin a b (.binop "sub" a.value b.value)
    (a.derivation ++ " - " ++ b.derivation)

/-- Operator `__rsub__`. -/
def rsub (a b : Variable) : Except PyErr (Variable × Variable) :=
  mkBin a b (.binop "sub" b.value a.value)
    (b.derivation ++ " - " ++ a.derivation)

/-- Operator `__mul__`: parenthesized juxtaposition template. -/
def mul (a b : Variable) : Except PyErr (Variable × Variable) :=
  mkBin a b (.binop "mul" a.value b.value)
    ("\\left(" ++ a.derivation ++ "\\right)\\left(" ++ b.derivation ++ "\\right)")

/-- Operator `__rmul__`. -/
def rmul (a b : Variable) : Except PyErr (Variable × Variable) :=
  mkBin a b (.binop "mul" b.value a.value)
    ("\\left(" ++ b.derivation ++ "\\right)\\left(" ++ a.derivation ++ "\\right)")

/-- Operator `__div__`: fraction template. -/
def div (a b : Variable) : Except PyErr (Variable × Variable) :=
  mkBin a b (.binop "div" a.value b.value)
    ("\\frac\x7b\\left(" ++ a.derivation ++ "\\right)\x7d\x7b\\left(" ++
      b.derivation ++ "\\right)\x7d")

/-- Operator `__rdiv__`. -/
def rdiv (a b : Variable) : Except PyErr (Variable × Variable) :=
  mkBin a b (.binop "div" b.value a.value)
    ("\\frac\x7b\\left(" ++ b.derivation ++ "\\right)\x7d\x7b\\left(" ++
      a.derivation ++ "\\right)\x7d")

/-- Operator `__pow__`: superscript template. -/
def pow (a b : Variable) : Except PyErr (Variable × Variable) :=
  mkBin a b (.binop "pow" a.value b.value)
    ("\x7b\\left(" ++ a.derivation ++ "\\right)\x7d^\x7b\\left(" ++
      b.derivation ++ "\\right)\x7d")

/-- Operator `__rpow__`. -/
def rpow (a b : Variable) : Except PyErr (Variable × Variable) :=
  mkBin a b (.binop "pow" b.value a.value)
    ("\x7b\\left(" ++ b.derivation ++ "\\right)\x7d^\x7b\\left(" ++
      a.derivation ++ "\\right)\x7d")

/-- Method `sum(dim=None)`: reduction over an optional named dimension; the
subscript names the dimension and its upper-cased set. -/
def sumOp (a : Variable) (dim : Option String) : Except PyErr (Variable × Variable) :=
  match get_dependencies a none with
  | .error e => .error e
  | .ok d =>
    let dimPart :=
      match dim with
      | some s => "_\x7b" ++ s ++ "\\in " ++ s.toUpper ++ "\x7d"
      | none => ""
    .ok (⟨.unop "sum" a.value, true, d,
          some ("\\sum" ++ dimPart ++ "\x7b\\left\\\x7b" ++ a.derivation ++
            "\\right\\\x7d\x7d")⟩,
         { a with dependencies := d })

/-- Method `ln()`: natural logarithm wrapper. -/
def ln (a : Variable) : Except PyErr (Variable × Variable) :=
  match get_dependencies a none with
  | .error e => .error e
  | .ok d =>
    .ok (⟨.unop "log" a.value, true, d,
          some ("\\ln\x7b\\left(" ++ a.derivation ++ "\\right)\x7d")⟩,
         { a with dependencies := d })

end Variable

/-! ## Catalog store (data/storage.py)

Python dicts are modelled as association lists with CPython semantics:
lookup finds the (unique, for dicts) binding; overwriting a present key
keeps its position; a new key is appended.  Non-variable collection
payloads are never inspected by the merge and are modelled as strings.  A catalog
variable participates in merge and serialization only through its
attribute mapping, which the schema splits into the `versions` sub-mapping
and the remaining top-level attributes. -/

/-- Association list keyed by strings, standing for a Python dict. -/
abbrev AListT (α : Type) := List (String × α)

/-- Dict lookup: first binding of the key. -/
def lookupA {α : Type} : AListT α → String → Option α
  | [], _ => none
  | (k, v) :: t, key => if key = k then some v else lookupA t key

/-- Dict item assignment `m[k] = v`: overwrite in place, else append. -/
def upsert {α : Type} : AListT α → String → α → AListT α
  | [], k, v => [(k, v)]
  | (k0, v0) :: t, k, v =>
    if k = k0 then (k0, v) :: t else (k0, v0) :: upsert t k v

/-- The key list of a dict. -/
def keysA {α : Type} (m : AListT α) : List String := m.map Prod.fst

/-- Dict update `local.update(incoming)`: item assignment for every incoming pair in
order. -/
def dictUpdate {α : Type} (m inc : AListT α) : AListT α :=
  inc.foldl (fun acc p => upsert acc p.1 p.2) m

/-- A catalog variable as the merge sees it: its attribute mapping, split
into the `versions` sub-mapping and the other top-level attributes
(symbol, description, author, ...), whose payloads the merge never
inspects. -/
structure VarEntry where
  versions : AListT VersionRec
  others : AListT String
deriving DecidableEq

/-- The five collections of `MockupDatabase._database`. -/
structure Catalog where
  vars : AListT VarEntry
  dims : AListT String
  files : AListT String
  functions : AListT String
  scenarios : AListT String
deriving DecidableEq

/-- The catalog constructed by `MetaDatabase.__init__`: all five
collections empty. -/
def emptyCatalog : Catalog := ⟨[], [], [], [], []⟩

/-- The message of the `ValueError` raised on a version conflict. -/
def conflictMsg (version : String) : String :=
  "Variable version " ++ version ++ " inconsistent with current version"

/-- Merge one incoming `versions` mapping into a local one, in incoming
order: absent labels are adopted; a label present in both must carry an
equal record, else the `ValueError` is raised.  The error carries the
local mapping as already mutated when the exception fires, because the
source updates the versions mapping in place before it can raise on a later
entry. -/
def mergeVersions :
    AListT VersionRec → AListT VersionRec →
    Except (String × AListT VersionRec) (AListT VersionRec)
  | loc, [] => .ok loc
  | loc, (lbl, r) :: rest =>
    match lookupA loc lbl with
    | none => mergeVersions (upsert loc lbl r) rest
    | some r0 =>
      if r0 = r then mergeVersions loc rest
      else .error (conflictMsg lbl, loc)

/-- Merge the incoming `variables` collection: an absent key is adopted
wholesale; a present key has only its `versions` sub-mapping merged.  The
error carries the collection as mutated up to the raise. -/
def mergeVars :
    AListT VarEntry → AListT VarEntry →
    Except (String × AListT VarEntry) (AListT VarEntry)
  | loc, [] => .ok loc
  | loc, (v, e) :: rest =>
    match lookupA loc v with
    | none => mergeVars (upsert loc v e) rest
    | some le =>
      match mergeVersions le.versions e.versions with
      | .error (msg, pv) => .error (msg, upsert loc v { le with versions := pv })
      | .ok nv => mergeVars (upsert loc v { le with versions := nv }) rest

/-- Method `MockupDatabase._merge_database`.  The iteration over the incoming
top-level keys processes `variables` last: `_generate_database` builds its
output dict by copying every other datatype first and inserting the
`variables` key afterwards, so dict order puts it last.  Hence the four
non-variable collections are updated (last-source-wins per key) before the
variable merge can raise; the error constructor carries the catalog state
left behind by the raise. -/
def merge_database (db inc : Catalog) : Except (String × Catalog) Catalog :=
  let db1 : Catalog :=
    { db with
      dims := dictUpdate db.dims inc.dims,
      files := dictUpdate db.files inc.files,
      functions := dictUpdate db.functions inc.functions,
      scenarios := dictUpdate db.scenarios inc.scenarios }
  match mergeVars db1.vars inc.vars with
  | .error (msg, pv) => .error (msg, { db1 with vars := pv })
  | .ok nv => .ok { db1 with vars := nv }

/-- Method `MockupDatabase._generate_database`, at the level of record content:
every non-variable collection is copied verbatim, and each raw variable
entry is reified into a `Variable` whose attributes mapping is exactly the
raw entry (the placeholder array shaped from the declared dims carries no
information the merge or serializer reads, and is not modelled). -/
def generate_database (snapshot : Catalog) : Catalog := snapshot

/-- Method `MockupDatabase._serialize_db`, at the level of record content: every
non-variable collection is rendered verbatim and each variable is replaced
by its attribute mapping — which is exactly how `Catalog` already
represents variables, so serialization is the identity on content.  The
JSON text written to disk is abstracted to the catalog value it encodes. -/
def serialize_db (db : Catalog) : Catalog := db

/-- Method `MockupDatabase.update_database`.  Inputs: the in-memory catalog, the
content of the local JSON snapshot file, and the outcome of the remote
fetch (`none` = the `ConnectionError` path).  On fetch failure the code
warns (`RuntimeWarning`) and falls back to the local snapshot; either way
it merges and then rewrites the local snapshot file.  Returns
`(new catalog, file content written, warned)`; a version-conflict raise
propagates, carrying `(message, catalog as mutated, file content
unchanged, warned)` — the write never runs on that path. -/
def update_database (db : Catalog) (localFile : Catalog) (remote : Option Catalog) :
    Except (String × Catalog × Catalog × Bool) (Catalog × Catalog × Bool) :=
  let fetched : Catalog × Bool :=
    match remote with
    | some u => (u, false)
    | none => (localFile, true)
  match merge_database db (generate_database fetched.1) with
  | .error (msg, mid) => .error (msg, mid, localFile, fetched.2)
  | .ok merged => .ok (merged, serialize_db merged, fetched.2)

/-- The module-level names bound in `data/storage.py` (imports and the two
class statements).  Name resolution against this table models CPython
global lookup: an unbound name raises `NameError`. -/
def storageGlobals : List String :=
  ["xr", "pd", "np", "os", "json", "numpy", "hashlib", "get_ipython",
   "display", "Markdown", "Latex", "FileLink", "widgets", "warnings",
   "Variable", "_VariableGetter", "_compat", "_require", "ConnectionError",
   "MetaDatabase", "MockupDatabase"]

/-- Evaluate a global name in the `storage` module namespace. -/
def evalGlobal (n : String) : Except PyErr Unit :=
  if n ∈ storageGlobals then .ok () else .error .nameError

/-- Method `MockupDatabase.publish`, with the `gcp_id` argument standing for the
resolved identifier (after the `get_attr` resolution; under Python 2 a
missing attribute is prompted for interactively — under Python 3 the
eagerly evaluated `raw_input` default already raises `NameError` here).
The first statement after the resolution is `if gcp_id in ds:` — but the
module binds no name `ds` anywhere, so evaluating it raises `NameError`
before any duplicate check, any catalog mutation, or any file write.  The
remainder of the method is unreachable dead code (were `ds` somehow bound
to the catalog dict, the continuation would be modelled there). -/
def publish (db : Catalog) (_gcp_id : String) : Except PyErr Catalog :=
  match evalGlobal "ds" with
  | .error e => .error e
  | .ok _ => .ok db

/-! ## Merge result states, well-formedness, and concrete inputs -/

/-- The variables collection left in memory by `_merge_database`, whether
the merge returned normally or raised. -/
def mergeVarsState (loc inc : AListT VarEntry) : AListT VarEntry :=
  match mergeVars loc inc with
  | .ok o => o
  | .error (_, o) => o

/-- The catalog left in memory by `_merge_database`, whether the merge
returned normally or raised. -/
def mergeState (db inc : Catalog) : Catalog :=
  match merge_database db inc with
  | .ok c => c
  | .error (_, c) => c

/-- Well-formedness of a catalog reified from JSON: dict keys are unique
(as in every CPython dict), in each collection and in each versions
mapping. -/
abbrev WfCatalog (c : Catalog) : Prop :=
  (keysA c.vars).Nodup ∧ (keysA c.dims).Nodup ∧ (keysA c.files).Nodup ∧
  (keysA c.functions).Nodup ∧ (keysA c.scenarios).Nodup ∧
  ∀ p ∈ c.vars, (keysA p.2.versions).Nodup

/-- A concrete version record. -/
def recA : VersionRec := ⟨"u-1", "V.2024-01-01", "2024-01-01", [], "path-a"⟩

/-- The same version label with a differing `filepath` payload. -/
def recB : VersionRec := ⟨"u-1", "V.2024-01-01", "2024-01-01", [], "path-b"⟩

/-- A local catalog holding variable `V` at version `V.2024-01-01` with
payload `recA`, and one dimension record. -/
def c1Local : Catalog :=
  ⟨[("V", ⟨[("V.2024-01-01", recA)], [("author", "ok")]⟩)],
   [("d0", "old")], [], [], []⟩

/-- An incoming catalog carrying the same version label of `V` with the
conflicting payload `recB`, plus a new dimension record. -/
def c1Inc : Catalog :=
  ⟨[("V", ⟨[("V.2024-01-01", recB)], [("author", "evil")]⟩)],
   [("d1", "new")], [], [], []⟩

/-- The state the conflicting merge of `c1Inc` into `c1Local` leaves
behind: the version conflict is detected only after the `dims` collection
has already been updated with the incoming record. -/
def c1Mid : Catalog :=
  ⟨[("V", ⟨[("V.2024-01-01", recA)], [("author", "ok")]⟩)],
   [("d0", "old"), ("d1", "new")], [], [], []⟩

/-- A small well-formed snapshot used for idempotence and frame runs. -/
def c4Inc : Catalog :=
  ⟨[("V", ⟨[("v1", recA)], [("name", "tas")]⟩)], [("d", "D")], [], [], []⟩

/-- A tracked variable with no versions metadata and no dependencies. -/
def aPlain : Variable := ⟨.base "a" "" ⟨none, none⟩, false, ∅, some "A"⟩

/-- A tracked variable with no versions metadata and one dependency. -/
def bPlain : Variable := ⟨.base "b" "" ⟨none, none⟩, false, {"x"}, some "B"⟩

/-- The pair returned by `aPlain + bPlain`: the freshly allocated result
and the receiver with its dependency set grown in place. -/
def addPair : Variable × Variable :=
  (⟨.binop "add" aPlain.value bPlain.value, true, {"x"}, some "A + B"⟩,
   ⟨aPlain.value, aPlain.derived, {"x"}, aPlain.derivationRaw⟩)

/-- A tracked variable whose versions mapping holds a plain-string payload,
so that `latest` resolves to a truthy marker not in `dependencies`. -/
def vStrVersion : Variable :=
  ⟨.base "v" "" ⟨none, some [("v1", .str "m1")]⟩, false, ∅, some "A"⟩

/-- A tracked variable whose attributes bind `versions` to an empty
mapping. -/
def vEmptyVersions : Variable :=
  ⟨.base "w" "" ⟨none, some []⟩, false, ∅, some "W"⟩

/-- The pair returned by `vStrVersion.sum()`: the marker resolved by
`latest` has been added to the dependency set of both the result and the
receiver. -/
def sumPair : Variable × Variable :=
  (⟨.unop "sum" vStrVersion.value, true, {"m1"},
    some "\\sum\x7b\\left\\\x7bA\\right\\\x7d\x7d"⟩,
   ⟨vStrVersion.value, vStrVersion.derived, {"m1"}, vStrVersion.derivationRaw⟩)

/-! ## Decidability of `Except` equality, for evaluating concrete runs -/

instance {ε α : Type} [DecidableEq ε] [DecidableEq α] : DecidableEq (Except ε α) := fun x y =>
  match x, y with
  | .ok a, .ok b =>
    if h : a = b then .isTrue (by rw [h])
    else .isFalse (fun hc => by cases hc; exact h rfl)
  | .error a, .error b =>
    if h : a = b then .isTrue (by rw [h])
    else .isFalse (fun hc => by cases hc; exact h rfl)
  | .ok _, .error _ => .isFalse (fun hc => by cases hc)
  | .error _, .ok _ => .isFalse (fun hc => by cases hc)

/-! ## Association list lemmas -/

theorem lookupA_upsert {α : Type} (m : AListT α) (k : String) (v : α) (k2 : String) :
    lookupA (upsert m k v) k2 = if k2 = k then some v else lookupA m k2 := by
  induction m with
  | nil => simp [upsert, lookupA]
  | cons p t ih =>
    obtain ⟨k0, v0⟩ := p
    by_cases hk : k = k0
    · subst hk
      by_cases h2 : k2 = k <;> simp [upsert, lookupA, h2]
    · by_cases h2 : k2 = k0
      · subst h2
        simp [upsert, lookupA, hk, Ne.symm hk]
      · simp [upsert, lookupA, hk, h2, ih]

theorem upsert_lookup_eq {α : Type} (m : AListT α) (k : String) (v : α)
    (h : lookupA m k = some v) : upsert m k v = m := by
  induction m with
  | nil => simp [lookupA] at h
  | cons p t ih =>
    obtain ⟨k0, v0⟩ := p
    by_cases hk : k = k0
    · subst hk
      simp [lookupA] at h
      simp [upsert, h]
    · simp [lookupA, hk] at h
      simp [upsert, hk, ih h]

theorem lookupA_none_iff {α : Type} (m : AListT α) (k : String) :
    lookupA m k = none ↔ k ∉ keysA m := by
  induction m with
  | nil => simp [lookupA, keysA]
  | cons p t ih =>
    obtain ⟨k0, v0⟩ := p
    by_cases hk : k = k0
    · subst hk
      simp [lookupA, keysA]
    · simp [lookupA, keysA, hk, ih]

theorem lookupA_mem_of_nodup {α : Type} (m : AListT α) (k : String) (v : α)
    (hnd : (keysA m).Nodup) (hm : (k, v) ∈ m) : lookupA m k = some v := by
  induction m with
  | nil => cases hm
  | cons p t ih =>
    obtain ⟨k0, v0⟩ := p
    simp only [keysA, List.map_cons, List.nodup_cons] at hnd
    rcases List.mem_cons.mp hm with heq | htail
    · cases heq
      simp [lookupA]
    · have hk : k ≠ k0 := by
        intro h
        subst h
        exact hnd.1 (List.mem_map.mpr ⟨(k, v), htail, rfl⟩)
      simp [lookupA, hk]
      exact ih hnd.2 htail

theorem lookupA_dictUpdate_notin {α : Type} (inc : AListT α) (m : AListT α) (k : String)
    (h : k ∉ keysA inc) : lookupA (dictUpdate m inc) k = lookupA m k := by
  induction inc generalizing m with
  | nil => rfl
  | cons p t ih =>
    obtain ⟨k0, v0⟩ := p
    simp only [keysA, List.map_cons, List.mem_cons] at h
    push_neg at h
    have := ih (m := upsert m k0 v0) (by simpa [keysA] using h.2)
    simp only [dictUpdate, List.foldl_cons] at *
    rw [this, lookupA_upsert, if_neg h.1]

theorem lookupA_dictUpdate_mem {α : Type} (inc : AListT α) (m : AListT α) (k : String) (v : α)
    (hnd : (keysA inc).Nodup) (hm : (k, v) ∈ inc) :
    lookupA (dictUpdate m inc) k = some v := by
  induction inc generalizing m with
  | nil => cases hm
  | cons p t ih =>
    obtain ⟨k0, v0⟩ := p
    simp only [keysA, List.map_cons, List.nodup_cons] at hnd
    simp only [dictUpdate, List.foldl_cons]
    rcases List.mem_cons.mp hm with heq | htail
    · cases heq
      have hnotin : k ∉ keysA t := fun hc => hnd.1 hc
      calc lookupA (dictUpdate (upsert m k v) t) k
          = lookupA (upsert m k v) k := lookupA_dictUpdate_notin t _ k hnotin
        _ = some v := by rw [lookupA_upsert]; simp
    · exact ih _ hnd.2 htail

theorem dictUpdate_fixed {α : Type} (inc : AListT α) (m : AListT α)
    (h : ∀ p ∈ inc, lookupA m p.1 = some p.2) : dictUpdate m inc = m := by
  induction inc with
  | nil => rfl
  | cons p t ih =>
    obtain ⟨k0, v0⟩ := p
    simp only [dictUpdate, List.foldl_cons]
    rw [upsert_lookup_eq m k0 v0 (h (k0, v0) (List.mem_cons_self _ _))]
    exact ih (fun q hq => h q (List.mem_cons_of_mem _ hq))

theorem dictUpdate_idem {α : Type} (inc : AListT α) (m : AListT α)
    (hnd : (keysA inc).Nodup) : dictUpdate (dictUpdate m inc) inc = dictUpdate m inc :=
  dictUpdate_fixed inc _ (fun p hp => lookupA_dictUpdate_mem inc m p.1 p.2 hnd hp)

/-! ## Version-merge lemmas -/

theorem mergeVersions_ok_notin (inc loc out : AListT VersionRec) (l : String)
    (h : mergeVersions loc inc = .ok out) (hl : l ∉ keysA inc) :
    lookupA out l = lookupA loc l := by
  induction inc generalizing loc with
  | nil =>
    simp only [mergeVersions] at h
    cases h
    rfl
  | cons p rest ih =>
    obtain ⟨lbl, r⟩ := p
    simp only [keysA, List.map_cons, List.mem_cons] at hl
    push_neg at hl
    simp only [mergeVersions] at h
    cases hlk : lookupA loc lbl with
    | none =>
      simp only [hlk] at h
      rw [ih (upsert loc lbl r) h (by simpa [keysA] using hl.2),
        lookupA_upsert, if_neg hl.1]
    | some r0 =>
      simp only [hlk] at h
      by_cases hr : r0 = r
      · rw [if_pos hr] at h
        exact ih loc h (by simpa [keysA] using hl.2)
      · rw [if_neg hr] at h
        cases h

theorem mergeVersions_ok_mem (inc loc out : AListT VersionRec)
    (hnd : (keysA inc).Nodup) (h : mergeVersions loc inc = .ok out)
    (l : String) (r : VersionRec) (hm : (l, r) ∈ inc) : lookupA out l = some r := by
  induction inc generalizing loc with
  | nil => cases hm
  | cons p rest ih =>
    obtain ⟨lbl, r0⟩ := p
    simp only [keysA, List.map_cons, List.nodup_cons] at hnd
    have hnotin : lbl ∉ keysA rest := fun hc => hnd.1 hc
    simp only [mergeVersions] at h
    rcases List.mem_cons.mp hm with heq | htail
    · cases heq
      cases hlk : lookupA loc l with
      | none =>
        simp only [hlk] at h
        rw [mergeVersions_ok_notin rest _ out l h hnotin, lookupA_upsert]
        simp
      | some r1 =>
        simp only [hlk] at h
        by_cases hr : r1 = r
        · subst hr
          rw [if_pos rfl] at h
          rw [mergeVersions_ok_notin rest _ out l h hnotin, hlk]
        · rw [if_neg hr] at h
          cases h
    · cases hlk : lookupA loc lbl with
      | none =>
        simp only [hlk] at h
        exact ih _ hnd.2 h htail
      | some r1 =>
        simp only [hlk] at h
        by_cases hr : r1 = r0
        · rw [if_pos hr] at h
          exact ih _ hnd.2 h htail
        · rw [if_neg hr] at h
          cases h

theorem mergeVersions_fixed (inc loc : AListT VersionRec)
    (hall : ∀ p ∈ inc, lookupA loc p.1 = some p.2) : mergeVersions loc inc = .ok loc := by
  induction inc with
  | nil => rfl
  | cons p rest ih =>
    obtain ⟨lbl, r⟩ := p
    have hl := hall (lbl, r) (List.mem_cons_self _ _)
    simp only [mergeVersions, hl, if_pos rfl]
    exact ih (fun q hq => hall q (List.mem_cons_of_mem _ hq))

theorem mergeVersions_idem (inc loc out : AListT VersionRec)
    (hnd : (keysA inc).Nodup) (h : mergeVersions loc inc = .ok out) :
    mergeVersions out inc = .ok out :=
  mergeVersions_fixed inc out
    (fun p hp => mergeVersions_ok_mem inc loc out hnd h p.1 p.2 hp)

/-! ## Variable-merge lemmas -/

theorem mergeVars_ok_notin (inc loc out : AListT VarEntry) (v : String)
    (h : mergeVars loc inc = .ok out) (hv : v ∉ keysA inc) :
    lookupA out v = lookupA loc v := by
  induction inc generalizing loc with
  | nil =>
    simp only [mergeVars] at h
    cases h
    rfl
  | cons p rest ih =>
    obtain ⟨v0, e0⟩ := p
    simp only [keysA, List.map_cons, List.mem_cons] at hv
    push_neg at hv
    simp only [mergeVars] at h
    cases hlk : lookupA loc v0 with
    | none =>
      simp only [hlk] at h
      rw [ih (upsert loc v0 e0) h (by simpa [keysA] using hv.2),
        lookupA_upsert, if_neg hv.1]
    | some le =>
      simp only [hlk] at h
      cases hmv : mergeVersions le.versions e0.versions with
      | error pe =>
        rw [hmv] at h
        cases h
      | ok nv =>
        rw [hmv] at h
        rw [ih _ h (by simpa [keysA] using hv.2), lookupA_upsert, if_neg hv.1]

theorem mergeVars_ok_mem (inc loc out : AListT VarEntry)
    (hnd : (keysA inc).Nodup)
    (hvers : ∀ p ∈ inc, (keysA p.2.versions).Nodup)
    (h : mergeVars loc inc = .ok out) (v : String) (e : VarEntry)
    (hm : (v, e) ∈ inc) :
    ∃ e2, lookupA out v = some e2 ∧
      mergeVersions e2.versions e.versions = .ok e2.versions := by
  induction inc generalizing loc with
  | nil => cases hm
  | cons p rest ih =>
    obtain ⟨v0, e0⟩ := p
    simp only [keysA, List.map_cons, List.nodup_cons] at hnd
    have hnotin : v0 ∉ keysA rest := fun hc => hnd.1 hc
    simp only [mergeVars] at h
    rcases List.mem_cons.mp hm with heq | htail
    · cases heq
      have hndv : (keysA e.versions).Nodup :=
        hvers (v, e) (List.mem_cons_self _ _)
      cases hlk : lookupA loc v with
      | none =>
        simp only [hlk] at h
        refine ⟨e, ?_, ?_⟩
        · rw [mergeVars_ok_notin rest _ out v h hnotin, lookupA_upsert]
          simp
        · exact mergeVersions_fixed e.versions e.versions
            (fun q hq => lookupA_mem_of_nodup e.versions q.1 q.2 hndv hq)
      | some le =>
        simp only [hlk] at h
        cases hmv : mergeVersions le.versions e.versions with
        | error pe =>
          rw [hmv] at h
          cases h
        | ok nv =>
          rw [hmv] at h
          refine ⟨{ le with versions := nv }, ?_, ?_⟩
          · rw [mergeVars_ok_notin rest _ out v h hnotin, lookupA_upsert]
            simp
          · exact mergeVersions_idem e.versions le.versions nv hndv hmv
    · have hvers2 : ∀ p ∈ rest, (keysA p.2.versions).Nodup :=
        fun q hq => hvers q (List.mem_cons_of_mem _ hq)
      cases hlk : lookupA loc v0 with
      | none =>
        simp only [hlk] at h
        exact ih _ hnd.2 hvers2 h htail
      | some le =>
        simp only [hlk] at h
        cases hmv : mergeVersions le.versions e0.versions with
        | error pe =>
          rw [hmv] at h
          cases h
        | ok nv =>
          rw [hmv] at h
          exact ih _ hnd.2 hvers2 h htail

theorem mergeVars_fixed (inc out : AListT VarEntry)
    (hfact : ∀ p ∈ inc, ∃ e2, lookupA out p.1 = some e2 ∧
      mergeVersions e2.versions p.2.versions = .ok e2.versions) :
    mergeVars out inc = .ok out := by
  induction inc with
  | nil => rfl
  | cons p rest ih =>
    obtain ⟨v, e⟩ := p
    obtain ⟨e2, hl, hmv⟩ := hfact (v, e) (List.mem_cons_self _ _)
    have heta : ({ e2 with versions := e2.versions } : VarEntry) = e2 := rfl
    simp only [mergeVars, hl, hmv, heta, upsert_lookup_eq out v e2 hl]
    exact ih (fun q hq => hfact q (List.mem_cons_of_mem _ hq))

theorem mergeVars_idem (inc loc out : AListT VarEntry)
    (hnd : (keysA inc).Nodup)
    (hvers : ∀ p ∈ inc, (keysA p.2.versions).Nodup)
    (h : mergeVars loc inc = .ok out) : mergeVars out inc = .ok out :=
  mergeVars_fixed inc out
    (fun p hp => mergeVars_ok_mem inc loc out hnd hvers h p.1 p.2 hp)

/-! ## Merge state lemmas -/

theorem mergeVarsState_nil (loc : AListT VarEntry) : mergeVarsState loc [] = loc := rfl

theorem mergeVarsState_cons_none (loc : AListT VarEntry) (v0 : String) (e0 : VarEntry)
    (t : AListT VarEntry) (hlk : lookupA loc v0 = none) :
    mergeVarsState loc ((v0, e0) :: t) = mergeVarsState (upsert loc v0 e0) t := by
  simp only [mergeVarsState, mergeVars, hlk]

theorem mergeVarsState_cons_some_ok (loc : AListT VarEntry) (v0 : String)
    (e0 le : VarEntry) (nv : AListT VersionRec) (t : AListT VarEntry)
    (hlk : lookupA loc v0 = some le)
    (hmv : mergeVersions le.versions e0.versions = .ok nv) :
    mergeVarsState loc ((v0, e0) :: t) =
      mergeVarsState (upsert loc v0 { le with versions := nv }) t := by
  simp only [mergeVarsState, mergeVars, hlk, hmv]

theorem mergeVarsState_cons_some_err (loc : AListT VarEntry) (v0 : String)
    (e0 le : VarEntry) (msg : String) (pv : AListT VersionRec) (t : AListT VarEntry)
    (hlk : lookupA loc v0 = some le)
    (hmv : mergeVersions le.versions e0.versions = .error (msg, pv)) :
    mergeVarsState loc ((v0, e0) :: t) = upsert loc v0 { le with versions := pv } := by
  simp only [mergeVarsState, mergeVars, hlk, hmv]

theorem mergeVarsState_others (inc loc : AListT VarEntry) (v : String) (e : VarEntry)
    (h : lookupA loc v = some e) :
    (lookupA (mergeVarsState loc inc) v).map VarEntry.others = some e.others := by
  induction inc generalizing loc e with
  | nil => simp [mergeVarsState_nil, h]
  | cons p t ih =>
    obtain ⟨v0, e0⟩ := p
    cases hlk : lookupA loc v0 with
    | none =>
      have hne : v ≠ v0 := by
        intro hv
        rw [hv, hlk] at h
        cases h
      rw [mergeVarsState_cons_none loc v0 e0 t hlk]
      exact ih _ e (by rw [lookupA_upsert, if_neg hne, h])
    | some le =>
      cases hmv : mergeVersions le.versions e0.versions with
      | ok nv =>
        rw [mergeVarsState_cons_some_ok loc v0 e0 le nv t hlk hmv]
        by_cases hv : v = v0
        · subst hv
          rw [h] at hlk
          cases hlk
          exact ih _ { e with versions := nv } (by rw [lookupA_upsert, if_pos rfl])
        · exact ih _ e (by rw [lookupA_upsert, if_neg hv, h])
      | error pe =>
        obtain ⟨msg, pv⟩ := pe
        rw [mergeVarsState_cons_some_err loc v0 e0 le msg pv t hlk hmv]
        by_cases hv : v = v0
        · subst hv
          rw [h] at hlk
          cases hlk
          rw [lookupA_upsert, if_pos rfl]
          rfl
        · rw [lookupA_upsert, if_neg hv, h]
          rfl

theorem mergeState_vars (db inc : Catalog) :
    (mergeState db inc).vars = mergeVarsState db.vars inc.vars := by
  simp only [mergeState, merge_database, mergeVarsState]
  cases hmv : mergeVars db.vars inc.vars with
  | ok nv => rfl
  | error pe =>
    obtain ⟨msg, pv⟩ := pe
    rfl

/-! ## Claim theorems: catalog store -/

/-- C1.  The claim asserts that a conflicting merge raises the
version-conflict error and leaves every collection exactly as before the
merge (atomicity).  The code raises the error but has already committed
part of the merge: at the concrete conflicting input the error fires with
the `dims` collection already updated, so the state differs from the
pre-merge catalog.  This evaluates `_merge_database` at that failing
input. -/
theorem claim1_merge_conflict_not_atomic :
    merge_database c1Local c1Inc =
      .error (conflictMsg "V.2024-01-01", c1Mid) ∧ c1Mid ≠ c1Local := by
  constructor
  · rfl
  · decide

/-- C4.  Merging a well-formed snapshot that has already been merged in is
idempotent: it succeeds again and leaves the catalog unchanged. -/
theorem claim4_merge_idempotent (db inc db1 : Catalog) (hwf : WfCatalog inc)
    (h : merge_database db inc = .ok db1) : merge_database db1 inc = .ok db1 := by
  obtain ⟨hv, hd, hf, hfn, hs, hvers⟩ := hwf
  simp only [merge_database] at h
  cases hmv : mergeVars db.vars inc.vars with
  | error pe =>
    obtain ⟨msg, pv⟩ := pe
    rw [hmv] at h
    cases h
  | ok nv =>
    rw [hmv] at h
    cases h
    simp only [merge_database, dictUpdate_idem inc.dims db.dims hd,
      dictUpdate_idem inc.files db.files hf,
      dictUpdate_idem inc.functions db.functions hfn,
      dictUpdate_idem inc.scenarios db.scenarios hs,
      mergeVars_idem inc.vars db.vars nv hv hvers hmv]

/-- C4 witness: a concrete well-formed snapshot merged into the empty
catalog yields itself, and remerging it is a no-op with no conflict. -/
theorem claim4_witness : merge_database c4Inc c4Inc = .ok c4Inc :=
  claim4_merge_idempotent emptyCatalog c4Inc c4Inc (by decide) (by rfl)

/-- C5.  For every merge (returning or raising) and every variable key
already present locally, the variable is still present afterwards and its
top-level attributes other than the `versions` sub-mapping are unchanged:
the merge is additive on version history only. -/
theorem claim5_merge_preserves_other_attrs (db inc : Catalog) (v : String)
    (e : VarEntry) (h : lookupA db.vars v = some e) :
    (lookupA (mergeState db inc).vars v).map VarEntry.others = some e.others := by
  rw [mergeState_vars]
  exact mergeVarsState_others inc.vars db.vars v e h

/-- C5 witness: merging a snapshot that carries different non-version
attributes for `V` leaves the local attributes of `V` untouched. -/
theorem claim5_witness :
    (lookupA (mergeState c1Local c4Inc).vars "V").map VarEntry.others =
      some [("author", "ok")] :=
  claim5_merge_preserves_other_attrs c1Local c4Inc "V"
    ⟨[("V.2024-01-01", recA)], [("author", "ok")]⟩ (by rfl)

/-- C6 counterexample: the claim asserts that on a connectivity failure
`update_database` always completes without failing the caller.  At this
concrete input the remote fetch fails, the code falls back to the local
snapshot and warns, but the fallback merge hits a version conflict, so the
call raises instead of completing (and nothing is persisted). -/
theorem claim6_counterexample :
    update_database c1Local c1Inc none =
      .error (conflictMsg "V.2024-01-01", c1Mid, c1Inc, true) := by
  rfl

/-- C6 as amended: on a connectivity failure `update_database` falls back
to the local snapshot and emits the warning, and on either fetch outcome,
whenever the merge succeeds the call returns normally with the merged
state persisted to the local snapshot file. -/
theorem claim6_update_fallback_persist :
    (∀ db lf m : Catalog, merge_database db (generate_database lf) = .ok m →
      update_database db lf none = .ok (m, serialize_db m, true)) ∧
    (∀ db lf u m : Catalog, merge_database db (generate_database u) = .ok m →
      update_database db lf (some u) = .ok (m, serialize_db m, false)) := by
  constructor
  · intro db lf m h
    simp only [update_database, h]
  · intro db lf u m h
    simp only [update_database, h]

/-- C6 witness: a concrete fallback run that merges cleanly returns
normally, warns, and persists the merged state. -/
theorem claim6_witness :
    update_database emptyCatalog c4Inc none = .ok (c4Inc, serialize_db c4Inc, true) :=
  claim6_update_fallback_persist.1 emptyCatalog c4Inc c4Inc (by rfl)

/-- C9.  The claim asserts that a duplicate publish raises the
duplicate-publish error kind and aborts.  The `publish` method of
`MockupDatabase` instead raises `NameError` on every call — duplicate or
not — because the name `ds` it immediately tests membership in is bound
nowhere in the module; in particular the raised kind is not the
duplicate-publish `KeyError`, and no record is admitted (the method also
never writes any file). -/
theorem claim9_publish_unbound_global :
    ∀ (db : Catalog) (g : String),
      publish db g = .error .nameError ∧ PyErr.nameError ≠ PyErr.keyError :=
  fun _ _ => ⟨rfl, by decide⟩

/-! ## Dependency-computation lemmas -/

theorem get_deps_some_ok (a b : Variable) (d : Finset String)
    (h : Variable.get_dependencies a (some b) = .ok d) :
    ∃ la lb, a.latest = .ok la ∧ b.latest = .ok lb ∧
      d = ((a.dependencies ∪ b.dependencies) ∪ Variable.markerSet la) ∪
        Variable.markerSet lb := by
  simp only [Variable.get_dependencies] at h
  cases hla : a.latest with
  | error e =>
    rw [hla] at h
    cases h
  | ok la =>
    rw [hla] at h
    cases hlb : b.latest with
    | error e =>
      simp only [hlb] at h
      cases h
    | ok lb =>
      simp only [hlb] at h
      cases h
      exact ⟨la, lb, rfl, rfl, rfl⟩

theorem get_deps_none_ok (a : Variable) (d : Finset String)
    (h : Variable.get_dependencies a none = .ok d) :
    ∃ la, a.latest = .ok la ∧ d = a.dependencies ∪ Variable.markerSet la := by
  simp only [Variable.get_dependencies] at h
  cases hla : a.latest with
  | error e =>
    rw [hla] at h
    cases h
  | ok la =>
    rw [hla] at h
    cases h
    exact ⟨la, rfl, rfl⟩

theorem get_deps_err (a : Variable) (o : Option Variable) (e : PyErr)
    (h : a.latest = .error e) : Variable.get_dependencies a o = .error e := by
  simp only [Variable.get_dependencies, h]

theorem mkBin_ok_parts (a b : Variable) (val : Value) (drv : String)
    (p : Variable × Variable) (h : Variable.mkBin a b val drv = .ok p) :
    Variable.get_dependencies a (some b) = .ok p.1.dependencies ∧
    p.1.value = val ∧ p.1.derived = true ∧ p.1.derivationRaw = some drv ∧
    p.2.value = a.value ∧ p.2.derived = a.derived ∧
    p.2.derivationRaw = a.derivationRaw ∧
    p.2.dependencies = p.1.dependencies := by
  unfold Variable.mkBin at h
  cases hg : Variable.get_dependencies a (some b) with
  | error e =>
    rw [hg] at h
    cases h
  | ok d =>
    rw [hg] at h
    cases h
    exact ⟨rfl, rfl, rfl, rfl, rfl, rfl, rfl, rfl⟩

theorem mkBin_superset (a b : Variable) (val : Value) (drv : String)
    (p : Variable × Variable) (h : Variable.mkBin a b val drv = .ok p) :
    a.dependencies ∪ b.dependencies ⊆ p.1.dependencies := by
  obtain ⟨hg, -, -, -, -, -, -, -⟩ := mkBin_ok_parts a b val drv p h
  obtain ⟨la, lb, -, -, hd⟩ := get_deps_some_ok a b _ hg
  rw [hd]
  exact Finset.Subset.trans Finset.subset_union_left Finset.subset_union_left

theorem mkBin_result_derivation (a b : Variable) (val : Value) (drv : String)
    (p : Variable × Variable) (h : Variable.mkBin a b val drv = .ok p) :
    p.1.derivation = drv := by
  obtain ⟨-, -, -, hdrv, -, -, -, -⟩ := mkBin_ok_parts a b val drv p h
  simp [Variable.derivation, hdrv]

theorem sumOp_deps (a : Variable) (dim : Option String) (p : Variable × Variable)
    (h : Variable.sumOp a dim = .ok p) :
    Variable.get_dependencies a none = .ok p.1.dependencies := by
  unfold Variable.sumOp at h
  cases hg : Variable.get_dependencies a none with
  | error e =>
    rw [hg] at h
    cases h
  | ok d =>
    rw [hg] at h
    cases h
    exact rfl

theorem ln_deps (a : Variable) (p : Variable × Variable)
    (h : Variable.ln a = .ok p) :
    Variable.get_dependencies a none = .ok p.1.dependencies := by
  unfold Variable.ln at h
  cases hg : Variable.get_dependencies a none with
  | error e =>
    rw [hg] at h
    cases h
  | ok d =>
    rw [hg] at h
    cases h
    exact rfl

/-! ## Claim theorems: tracked variables -/

/-- C2.  Whenever a binary arithmetic operation (or a reflected form)
returns a result, the dependency set of the result contains the union of
the two operand dependency sets: no composition drops a dependency either
operand carried. -/
theorem claim2_dependencies_superset (a b : Variable) :
    (∀ p, Variable.add a b = .ok p →
      a.dependencies ∪ b.dependencies ⊆ p.1.dependencies) ∧
    (∀ p, Variable.radd a b = .ok p →
      a.dependencies ∪ b.dependencies ⊆ p.1.dependencies) ∧
    (∀ p, Variable.sub a b = .ok p →
      a.dependencies ∪ b.dependencies ⊆ p.1.dependencies) ∧
    (∀ p, Variable.rsub a b = .ok p →
      a.dependencies ∪ b.dependencies ⊆ p.1.dependencies) ∧
    (∀ p, Variable.mul a b = .ok p →
      a.dependencies ∪ b.dependencies ⊆ p.1.dependencies) ∧
    (∀ p, Variable.rmul a b = .ok p →
      a.dependencies ∪ b.dependencies ⊆ p.1.dependencies) ∧
    (∀ p, Variable.div a b = .ok p →
      a.dependencies ∪ b.dependencies ⊆ p.1.dependencies) ∧
    (∀ p, Variable.rdiv a b = .ok p →
      a.dependencies ∪ b.dependencies ⊆ p.1.dependencies) ∧
    (∀ p, Variable.pow a b = .ok p →
      a.dependencies ∪ b.dependencies ⊆ p.1.dependencies) ∧
    (∀ p, Variable.rpow a b = .ok p →
      a.dependencies ∪ b.dependencies ⊆ p.1.dependencies) := by
  refine ⟨?_, ?_, ?_, ?_, ?_, ?_, ?_, ?_, ?_, ?_⟩ <;>
    exact fun p h => mkBin_superset a b _ _ p h

/-- C2 witness: a concrete addition whose result dependency set contains
the union of the operand sets. -/
theorem claim2_witness :
    aPlain.dependencies ∪ bPlain.dependencies ⊆ addPair.1.dependencies :=
  (claim2_dependencies_superset aPlain bPlain).1 addPair (by decide)

/-- C3.  Whenever a binary arithmetic operation returns, its derivation is
exactly the per-operator template applied to the operand derivations, and
each reflected form applies the same template with the operands swapped. -/
theorem claim3_derivation_templates (a b : Variable) :
    (∀ p, Variable.add a b = .ok p →
      p.1.derivation = a.derivation ++ " + " ++ b.derivation) ∧
    (∀ p, Variable.radd a b = .ok p →
      p.1.derivation = b.derivation ++ " + " ++ a.derivation) ∧
    (∀ p, Variable.sub a b = .ok p →
      p.1.derivation = a.derivation ++ " - " ++ b.derivation) ∧
    (∀ p, Variable.rsub a b = .ok p →
      p.1.derivation = b.derivation ++ " - " ++ a.derivation) ∧
    (∀ p, Variable.mul a b = .ok p →
      p.1.derivation =
        "\\left(" ++ a.derivation ++ "\\right)\\left(" ++ b.derivation ++ "\\right)") ∧
    (∀ p, Variable.rmul a b = .ok p →
      p.1.derivation =
        "\\left(" ++ b.derivation ++ "\\right)\\left(" ++ a.derivation ++ "\\right)") ∧
    (∀ p, Variable.div a b = .ok p →
      p.1.derivation =
        "\\frac\x7b\\left(" ++ a.derivation ++ "\\right)\x7d\x7b\\left(" ++
          b.derivation ++ "\\right)\x7d") ∧
    (∀ p, Variable.rdiv a b = .ok p →
      p.1.derivation =
        "\\frac\x7b\\left(" ++ b.derivation ++ "\\right)\x7d\x7b\\left(" ++
          a.derivation ++ "\\right)\x7d") ∧
    (∀ p, Variable.pow a b = .ok p →
      p.1.derivation =
        "\x7b\\left(" ++ a.derivation ++ "\\right)\x7d^\x7b\\left(" ++
          b.derivation ++ "\\right)\x7d") ∧
    (∀ p, Variable.rpow a b = .ok p →
      p.1.derivation =
        "\x7b\\left(" ++ b.derivation ++ "\\right)\x7d^\x7b\\left(" ++
          a.derivation ++ "\\right)\x7d") := by
  refine ⟨?_, ?_, ?_, ?_, ?_, ?_, ?_, ?_, ?_, ?_⟩ <;>
    exact fun p h => mkBin_result_derivation a b _ _ p h

/-- C3 witness: the concrete addition templates its operand derivations
exactly. -/
theorem claim3_witness :
    addPair.1.derivation = aPlain.derivation ++ " + " ++ bPlain.derivation :=
  (claim3_derivation_templates aPlain bPlain).1 addPair (by decide)

/-- C7 counterexample: `sum` on a variable whose `latest` resolves to a
truthy marker returns a result whose dependency set is not the unchanged
operand set — the marker has been added. -/
theorem claim7_counterexample :
    (Variable.sumOp vStrVersion none).map (fun p => p.1.dependencies) =
      .ok {"m1"} ∧
    vStrVersion.dependencies = ∅ ∧
    (Variable.sumOp vStrVersion none).map (fun p => p.1.dependencies) ≠
      .ok vStrVersion.dependencies := by
  refine ⟨by decide, by decide, by decide⟩

/-- C7 as amended: whenever `sum` or `ln` returns, the dependency set of
the result is the receiver set united with the truthy `latest` marker of
the receiver (so it is unchanged exactly when no such marker resolves, and
never loses an identifier). -/
theorem claim7_unary_latest_union (a : Variable) :
    (∀ dim p la, Variable.sumOp a dim = .ok p → a.latest = .ok la →
      p.1.dependencies = a.dependencies ∪ Variable.markerSet la ∧
      a.dependencies ⊆ p.1.dependencies) ∧
    (∀ p la, Variable.ln a = .ok p → a.latest = .ok la →
      p.1.dependencies = a.dependencies ∪ Variable.markerSet la ∧
      a.dependencies ⊆ p.1.dependencies) := by
  constructor
  · intro dim p la h hla
    obtain ⟨la2, hla2, hd⟩ := get_deps_none_ok a _ (sumOp_deps a dim p h)
    rw [hla] at hla2
    cases hla2
    exact ⟨hd, by rw [hd]; exact Finset.subset_union_left⟩
  · intro p la h hla
    obtain ⟨la2, hla2, hd⟩ := get_deps_none_ok a _ (ln_deps a p h)
    rw [hla] at hla2
    cases hla2
    exact ⟨hd, by rw [hd]; exact Finset.subset_union_left⟩

/-- C7 witness: the concrete `sum` run adds exactly the resolved marker. -/
theorem claim7_witness :
    sumPair.1.dependencies =
      vStrVersion.dependencies ∪ Variable.markerSet (some "m1") ∧
    vStrVersion.dependencies ⊆ sumPair.1.dependencies :=
  (claim7_unary_latest_union vStrVersion).1 none sumPair (some "m1")
    (by decide) (by decide)

/-- C8 counterexample: a concrete addition succeeds, yet the dependency
set of the receiver after the call differs from its set before the call — the
operation mutates the left operand in place via `|=` in
`_get_dependencies`. -/
theorem claim8_counterexample :
    Variable.add aPlain bPlain = .ok addPair ∧
    addPair.2.dependencies ≠ aPlain.dependencies := by
  refine ⟨by decide, by decide⟩

/-- C8 as amended: every binary operation allocates a fresh result and
never writes to the other operand; the receiver keeps its value,
derivation and derived flag, but its dependency set is mutated in place to
the very union that becomes the dependency set of the result. -/
theorem claim8_receiver_mutation (a b : Variable) :
    (∀ p, Variable.add a b = .ok p →
      p.2.value = a.value ∧ p.2.derivationRaw = a.derivationRaw ∧
      p.2.derived = a.derived ∧ p.2.dependencies = p.1.dependencies) ∧
    (∀ p, Variable.radd a b = .ok p →
      p.2.value = a.value ∧ p.2.derivationRaw = a.derivationRaw ∧
      p.2.derived = a.derived ∧ p.2.dependencies = p.1.dependencies) ∧
    (∀ p, Variable.sub a b = .ok p →
      p.2.value = a.value ∧ p.2.derivationRaw = a.derivationRaw ∧
      p.2.derived = a.derived ∧ p.2.dependencies = p.1.dependencies) ∧
    (∀ p, Variable.rsub a b = .ok p →
      p.2.value = a.value ∧ p.2.derivationRaw = a.derivationRaw ∧
      p.2.derived = a.derived ∧ p.2.dependencies = p.1.dependencies) ∧
    (∀ p, Variable.mul a b = .ok p →
      p.2.value = a.value ∧ p.2.derivationRaw = a.derivationRaw ∧
      p.2.derived = a.derived ∧ p.2.dependencies = p.1.dependencies) ∧
    (∀ p, Variable.rmul a b = .ok p →
      p.2.value = a.value ∧ p.2.derivationRaw = a.derivationRaw ∧
      p.2.derived = a.derived ∧ p.2.dependencies = p.1.dependencies) ∧
    (∀ p, Variable.div a b = .ok p →
      p.2.value = a.value ∧ p.2.derivationRaw = a.derivationRaw ∧
      p.2.derived = a.derived ∧ p.2.dependencies = p.1.dependencies) ∧
    (∀ p, Variable.rdiv a b = .ok p →
      p.2.value = a.value ∧ p.2.derivationRaw = a.derivationRaw ∧
      p.2.derived = a.derived ∧ p.2.dependencies = p.1.dependencies) ∧
    (∀ p, Variable.pow a b = .ok p →
      p.2.value = a.value ∧ p.2.derivationRaw = a.derivationRaw ∧
      p.2.derived = a.derived ∧ p.2.dependencies = p.1.dependencies) ∧
    (∀ p, Variable.rpow a b = .ok p →
      p.2.value = a.value ∧ p.2.derivationRaw = a.derivationRaw ∧
      p.2.derived = a.derived ∧ p.2.dependencies = p.1.dependencies) := by
  refine ⟨?_, ?_, ?_, ?_, ?_, ?_, ?_, ?_, ?_, ?_⟩ <;>
    exact fun p h =>
      match mkBin_ok_parts a b _ _ p h with
      | ⟨_, _, _, _, h5, h6, h7, h8⟩ => ⟨h5, h7, h6, h8⟩

/-- C8 witness: the concrete addition keeps the value and derivation of
the receiver and rebinds its dependency set to that of the result. -/
theorem claim8_witness :
    addPair.2.value = aPlain.value ∧
    addPair.2.derivationRaw = aPlain.derivationRaw ∧
    addPair.2.derived = aPlain.derived ∧
    addPair.2.dependencies = addPair.1.dependencies :=
  (claim8_receiver_mutation aPlain bPlain).1 addPair (by decide)

/-- C10.  A variable whose attributes bind `versions` to an empty mapping
makes `latest` raise the uncaught `IndexError`, and consequently every
arithmetic operation on it raises instead of returning. -/
theorem claim10_empty_versions_raise (a : Variable)
    (h : a.value.attrs.versions = some []) :
    a.latest = .error .indexError ∧
    (∀ b, Variable.add a b = .error .indexError) ∧
    (∀ b, Variable.radd a b = .error .indexError) ∧
    (∀ b, Variable.sub a b = .error .indexError) ∧
    (∀ b, Variable.rsub a b = .error .indexError) ∧
    (∀ b, Variable.mul a b = .error .indexError) ∧
    (∀ b, Variable.rmul a b = .error .indexError) ∧
    (∀ b, Variable.div a b = .error .indexError) ∧
    (∀ b, Variable.rdiv a b = .error .indexError) ∧
    (∀ b, Variable.pow a b = .error .indexError) ∧
    (∀ b, Variable.rpow a b = .error .indexError) ∧
    (∀ dim, Variable.sumOp a dim = .error .indexError) ∧
    Variable.ln a = .error .indexError := by
  have hlat : a.latest = .error .indexError := by
    simp only [Variable.latest, h]
    rfl
  have herr : ∀ o, Variable.get_dependencies a o = .error .indexError :=
    fun o => get_deps_err a o _ hlat
  refine ⟨hlat, fun b => ?_, fun b => ?_, fun b => ?_, fun b => ?_, fun b => ?_,
    fun b => ?_, fun b => ?_, fun b => ?_, fun b => ?_, fun b => ?_,
    fun dim => ?_, ?_⟩ <;>
    simp [Variable.add, Variable.radd, Variable.sub, Variable.rsub,
      Variable.mul, Variable.rmul, Variable.div, Variable.rdiv, Variable.pow,
      Variable.rpow, Variable.sumOp, Variable.ln, Variable.mkBin, herr]

/-- C10 witness: the concrete empty-versions variable raises `IndexError`
from `latest` and from an addition. -/
theorem claim10_witness :
    Variable.latest vEmptyVersions = .error .indexError ∧
    Variable.add vEmptyVersions bPlain = .error .indexError :=
  ⟨(claim10_empty_versions_raise vEmptyVersions rfl).1,
   (claim10_empty_versions_raise vEmptyVersions rfl).2.1 bPlain⟩

end ImpactLab
